import Mathlib

/-!
Verification of the calendar-occurrence engine of `lambda.calendar.next.event`.

The definitions below are a shallow embedding of the ical.js-based handler
(`src/unnamed/part_000`; the older `src/index.mjs` variant is superseded by it
and the spec describes the newer one).  JS `Date` values are modelled as their
millisecond timestamps (`Int`), absent fields (`null`/`undefined`) as
`Option`, and the RFC-5545 recurrence iterator as the sequence of candidate
instants it yields.  The environment constant `DEFAULT_DURATION_MIN` is passed
explicitly as `defDurMin`.
-/

namespace CalendarNext

/-- One parsed VEVENT, as produced by `parseVEvent` (part_000 lines 199-216):
`uid`, `summary` (always a string, `""` when absent, from `event.summary || ""`),
`location`/`organizer` (`null` collapsed to `none`), `start`/`end` instants in
ms, the recurrence id instant of an override, the flattened EXDATE value lists,
the STATUS property, the `datetype` discriminator (`"date"` for all-day), and
whether an RRULE is present (the iterator itself is passed separately). -/
structure EvRec where
  uid : String
  summary : String
  location : Option String
  organizer : Option String
  start : Option Int
  end_ : Option Int
  recurrenceId : Option Int
  exdate : List (List Int)
  status : Option String
  datetype : String
  rrule : Bool
  deriving Repr, DecidableEq

/-- A concrete expanded occurrence, as pushed onto `occs`
(part_000 `mkOcc`, lines 475-485; the standalone-override pushes omit the
`status` field, modelled as `none`). -/
structure Occ where
  uid : String
  title : String
  location : Option String
  organizer : Option String
  startMs : Int
  endMs : Int
  status : Option String
  deriving Repr, DecidableEq

/-- `24 * 60 * 60 * 1000`, the `maxEventDuration` of the smart skip and the
day length used by `todayWindow`'s date arithmetic. -/
def dayMs : Int := 86400000

/-- `7 * 24 * 60 * 60 * 1000`, the one-week duration sanity bound. -/
def weekMs : Int := 604800000

/-! ## Timeline analysis (`computeNextTriple` / `computeMetrics`) -/

/-- The half-open membership test `nowMs >= o.startMs && nowMs < o.endMs`
used by both `computeNextTriple` (line 329) and `computeMetrics`
(lines 376-379). -/
def currentPred (now : Int) (o : Occ) : Bool :=
  decide (o.startMs ≤ now ∧ now < o.endMs)

/-- `occs.find((o) => nowMs >= o.startMs && nowMs < o.endMs)`:
the first occurrence containing `now` half-openly. -/
def findCurrent (occs : List Occ) (now : Int) : Option Occ :=
  occs.find? (currentPred now)

/-- `currentEvent ? currentEvent.endMs : nowMs` (part_000 line 334). -/
def searchFromMs (occs : List Occ) (now : Int) : Int :=
  match findCurrent occs now with
  | some c => c.endMs
  | none => now

/-- `occs.findIndex((o) => o.startMs >= searchFromMs)` followed by indexing
(part_000 lines 335-336); taking the element at the first satisfying index is
exactly `List.find?`. -/
def nextOcc (occs : List Occ) (now : Int) : Option Occ :=
  occs.find? (fun o => decide (searchFromMs occs now ≤ o.startMs))

/-- `occs.some((o) => nowMs >= o.startMs && nowMs < o.endMs)`
(part_000 line 376). -/
def isOverlappingNow (occs : List Occ) (now : Int) : Bool :=
  occs.any (currentPred now)

/-- The metrics assembled by `computeMetrics` (part_000 lines 375-399);
serialization to DTO strings is dropped, keeping the occurrence itself
(`toDtoWithTz` is non-null exactly on non-null input). -/
structure Metrics where
  minutesUntilNext : Option Int
  isOverlappingNow : Bool
  current : Option Occ
  deriving Repr, DecidableEq

/-- `Math.max(0, Math.round((nextStartMs - nowMs) / 60000))`:
JS `Math.round x = ⌊x + 1/2⌋`, so for the exact rational `d / 60000` this is
`⌊(d + 30000) / 60000⌋`. -/
def minutesUntil (nowMs nextStartMs : Int) : Int :=
  max 0 ((nextStartMs - nowMs + 30000).fdiv 60000)

/-- `computeMetrics(occs, nowMs, nextDto, tz)` (part_000 lines 375-399). -/
def computeMetrics (occs : List Occ) (now : Int) (next : Option Occ) : Metrics :=
  { minutesUntilNext := next.map (fun n => minutesUntil now n.startMs)
    isOverlappingNow := isOverlappingNow occs now
    current := findCurrent occs now }

/-! ## Occurrence expansion (`expandOccurrencesInWindow`, part_000 lines 426-637) -/

/-- The uid's override map `Map<recurrenceIdMs, overrideEvent>` with its exact
`Map.get` lookup, modelled as an insertion-ordered association list (JS `Map`
iterates in insertion order and holds at most one entry per key). -/
def lookupOv (ovr : List (Int × EvRec)) (k : Int) : Option EvRec :=
  match ovr with
  | [] => none
  | (a, v) :: rest => if a = k then some v else lookupOv rest k

/-- `isExcluded(date, exdates)` (part_000 lines 639-652): true when any EXDATE
value equals the candidate instant exactly. -/
def isExcluded (t : Int) (exdates : List (List Int)) : Bool :=
  exdates.any (fun vs => vs.any (fun v => decide (v = t)))

/-- JS `String.prototype.startsWith`, structurally on the character lists
(`s.startsWith(p)` is `strStartsWith s p`). -/
def strStartsWith (s p : String) : Bool :=
  p.data.isPrefixOf s.data

/-- `calcDurationMsFromEvent(e)` (part_000 lines 458-464): the event's own
`end − start` when both exist and the difference is positive and under one
week, otherwise `DEFAULT_DURATION_MIN * 60_000`. -/
def calcDurationMsFromEvent (defDurMin : Int) (e : EvRec) : Int :=
  match e.start, e.end_ with
  | some s, some en =>
    if 0 < en - s ∧ en - s < weekMs then en - s else defDurMin * 60000
  | _, _ => defDurMin * 60000

/-- `calcEndMs(occStartDate, overrideEv)` (part_000 lines 466-473): the
override's own end when it lies strictly after the occurrence start, otherwise
the occurrence start plus the duration of `overrideEv ?? ev`. -/
def calcEndMs (defDurMin : Int) (ev : EvRec) (occStartMs : Int)
    (overrideEv : Option EvRec) : Int :=
  match overrideEv with
  | some o =>
    match o.end_ with
    | some en =>
      if occStartMs < en then en
      else occStartMs + calcDurationMsFromEvent defDurMin o
    | none => occStartMs + calcDurationMsFromEvent defDurMin o
  | none => occStartMs + calcDurationMsFromEvent defDurMin ev

/-- `mkOcc(startDate, overrideEv)` (part_000 lines 475-485): override fields
supersede the master's field-by-field (`??` coalescing; a title that is the
empty string falls back, mirroring `||`). -/
def mkOcc (defDurMin : Int) (ev : EvRec) (startMs : Int)
    (overrideEv : Option EvRec) : Occ :=
  let baseTitle := if ev.summary = "" then "(No title)" else ev.summary
  let t := match overrideEv with
    | some o => o.summary
    | none => baseTitle
  { uid := ev.uid
    title := if t = "" then "(No title)" else t
    location := (overrideEv.bind (fun o => o.location)).orElse (fun _ => ev.location)
    organizer := (overrideEv.bind (fun o => o.organizer)).orElse (fun _ => ev.organizer)
    startMs := startMs
    endMs := calcEndMs defDurMin ev startMs overrideEv
    status := (overrideEv.bind (fun o => o.status)).orElse (fun _ => ev.status) }

/-- The recurring-expansion `while ((next = iterator.next()))` loop
(part_000 lines 510-578) over the candidate instants the iterator yields, in
order, threading the accumulated `usedOverrides` set (kept as a list):
break once a candidate reaches `windowEnd`; smart-skip candidates more than
24h before `windowStart`; drop EXDATE matches; consume and apply the override
keyed at the candidate instant; drop cancelled instances; keep the adjusted
occurrence when it overlaps the window. -/
def expandLoop (defDurMin : Int) (ev : EvRec) (ovr : List (Int × EvRec))
    (wS wE : Int) : List Int → List Int → List Occ × List Int
  | [], used => ([], used)
  | c :: rest, used =>
    if wE ≤ c then ([], used)
    else if c + dayMs < wS then expandLoop defDurMin ev ovr wS wE rest used
    else if isExcluded c ev.exdate then expandLoop defDurMin ev ovr wS wE rest used
    else
      let override := lookupOv ovr c
      let used' := if override.isSome then used ++ [c] else used
      if override.bind (fun o => o.status) = some "CANCELLED" then
        expandLoop defDurMin ev ovr wS wE rest used'
      else
        let startMs := (override.bind (fun o => o.start)).getD c
        let endMs := calcEndMs defDurMin ev startMs override
        if startMs < wE ∧ wS < endMs then
          let occ := mkOcc defDurMin ev startMs override
          if occ.status = some "CANCELLED" ∨ strStartsWith occ.title "Canceled:" then
            expandLoop defDurMin ev ovr wS wE rest used'
          else
            let r := expandLoop defDurMin ev ovr wS wE rest used'
            (occ :: r.1, r.2)
        else expandLoop defDurMin ev ovr wS wE rest used'

/-- The unused-override standalone pass (part_000 lines 591-634): every
override never matched during iteration, not cancelled (by status or by the
title convention) and with a start, becomes a standalone occurrence when it
overlaps the window; its end is the override's literal end, else start plus
the default duration; the pushed object carries no `status` field. -/
def standaloneOccs (defDurMin : Int) (ev : EvRec) (ovr : List (Int × EvRec))
    (wS wE : Int) (used : List Int) : List Occ :=
  ovr.filterMap (fun p =>
    if used.contains p.1 then none
    else if p.2.status = some "CANCELLED" then none
    else
      match p.2.start with
      | none => none
      | some s =>
        let eMs := p.2.end_.getD (s + defDurMin * 60000)
        if s < wE ∧ wS < eMs then
          let baseTitle := if ev.summary = "" then "(No title)" else ev.summary
          let title := if p.2.summary = "" then baseTitle else p.2.summary
          if strStartsWith title "Canceled:" then none
          else some
            { uid := p.2.uid
              title := title
              location := p.2.location.orElse (fun _ => ev.location)
              organizer := p.2.organizer.orElse (fun _ => ev.organizer)
              startMs := s
              endMs := eMs
              status := none }
        else none)

/-- `expandOccurrencesInWindow(ev, windowStartMs, windowEndMs, overridesByUid)`
(part_000 lines 426-637), with the uid's override map and the recurrence
iterator's candidate instants passed explicitly.  All-day events and events
without a start are excluded; a non-recurring master yields its single
candidate when it overlaps the window (the overlap test uses the literal
`ev.end`, while the emitted occurrence's end goes through `calcEndMs`);
a recurring master runs the iterator loop and then appends the unused
overrides. -/
def expandOccurrencesInWindow (defDurMin : Int) (ev : EvRec) (cands : List Int)
    (ovr : List (Int × EvRec)) (wS wE : Int) : List Occ :=
  if ev.datetype = "date" then []
  else
    match ev.start with
    | none => []
    | some s =>
      if !ev.rrule then
        let startMs := s
        let endMs := ev.end_.getD (startMs + defDurMin * 60000)
        if startMs < wE ∧ wS < endMs then
          let occ := mkOcc defDurMin ev startMs none
          if occ.status = some "CANCELLED" ∨ strStartsWith occ.title "Canceled:" then []
          else [occ]
        else []
      else
        let r := expandLoop defDurMin ev ovr wS wE cands []
        r.1 ++ standaloneOccs defDurMin ev ovr wS wE r.2

/-- The exhaustive-scan reference for the smart skip: `expandLoop` with the
skip branch (part_000 lines 535-540) removed and everything else identical,
the "expansion without the fast-skip" the spec compares against. -/
def expandLoopNoSkip (defDurMin : Int) (ev : EvRec) (ovr : List (Int × EvRec))
    (wS wE : Int) : List Int → List Int → List Occ × List Int
  | [], used => ([], used)
  | c :: rest, used =>
    if wE ≤ c then ([], used)
    else if isExcluded c ev.exdate then expandLoopNoSkip defDurMin ev ovr wS wE rest used
    else
      let override := lookupOv ovr c
      let used' := if override.isSome then used ++ [c] else used
      if override.bind (fun o => o.status) = some "CANCELLED" then
        expandLoopNoSkip defDurMin ev ovr wS wE rest used'
      else
        let startMs := (override.bind (fun o => o.start)).getD c
        let endMs := calcEndMs defDurMin ev startMs override
        if startMs < wE ∧ wS < endMs then
          let occ := mkOcc defDurMin ev startMs override
          if occ.status = some "CANCELLED" ∨ strStartsWith occ.title "Canceled:" then
            expandLoopNoSkip defDurMin ev ovr wS wE rest used'
          else
            let r := expandLoopNoSkip defDurMin ev ovr wS wE rest used'
            (occ :: r.1, r.2)
        else expandLoopNoSkip defDurMin ev ovr wS wE rest used'

/-- `expandOccurrencesInWindow` with the exhaustive loop in place of the
smart-skip loop. -/
def expandOccurrencesInWindowNoSkip (defDurMin : Int) (ev : EvRec)
    (cands : List Int) (ovr : List (Int × EvRec)) (wS wE : Int) : List Occ :=
  if ev.datetype = "date" then []
  else
    match ev.start with
    | none => []
    | some s =>
      if !ev.rrule then
        let startMs := s
        let endMs := ev.end_.getD (startMs + defDurMin * 60000)
        if startMs < wE ∧ wS < endMs then
          let occ := mkOcc defDurMin ev startMs none
          if occ.status = some "CANCELLED" ∨ strStartsWith occ.title "Canceled:" then []
          else [occ]
        else []
      else
        let r := expandLoopNoSkip defDurMin ev ovr wS wE cands []
        r.1 ++ standaloneOccs defDurMin ev ovr wS wE r.2

/-! ## Loop control of the recurrence iteration (for the termination claim)

`expandLoop` above consumes the finite list of instants an iterator run
yields; to reason about how many `iterator.next()` calls the JS loop itself
performs, the iterator is modelled as `iter : Nat → Option Int` (the value of
the k-th call, `none` once exhausted) and the loop as fuel-bounded recursion:
`expandIterLoop iter wE fuel count` is `instanceCount` after the loop, when at
most `fuel` further calls are allowed and `count` calls already happened.
The only exits the code has are the iterator returning a falsy value and the
`occMs >= windowEndMs` break (part_000 lines 515-533); all `continue` paths
keep iterating, and no bound on `instanceCount` is ever enforced. -/

def expandIterLoop (iter : Nat → Option Int) (wE : Int) :
    Nat → Nat → Nat
  | 0, count => count
  | fuel + 1, count =>
    match iter count with
    | none => count
    | some c => if wE ≤ c then count + 1 else expandIterLoop iter wE fuel (count + 1)

/-- The number of iterations the recurring-expansion loop performs from a
fresh start, given `fuel` allowed calls. -/
def loopIterations (iter : Nat → Option Int) (wE : Int) (fuel : Nat) : Nat :=
  expandIterLoop iter wE fuel 0

/-! ## Window calculation (`todayWindow`, part_000 lines 665-726)

The zone is modelled by its formatting behaviour: `off t` is the zone's
UTC-offset in ms at instant `t`, i.e. reinterpreting the wall clock
`Intl.DateTimeFormat` shows at `t` as if it were UTC yields `t + off t`
(whole seconds, as formatting truncates below seconds).  Calendar dates are
modelled as days since the epoch, so `d * dayMs` is `Date.parse` of the date's
`T00:00:00Z` string and `d + 1` is `setUTCDate(getUTCDate() + 1)`. -/

/-- `shiftUtcToZonedMidnightMs(utcMidnightDate, timeZone)` (lines 700-726):
format `utcMid` in the zone, reinterpret the wall clock as UTC (`asIfUtc`),
and subtract the resulting offset. -/
def shiftUtcToZonedMidnightMs (off : Int → Int) (utcMidnightMs : Int) : Int :=
  let asIfUtc := utcMidnightMs + off utcMidnightMs
  let offsetMs := asIfUtc - utcMidnightMs
  utcMidnightMs - offsetMs

/-- The zone-local calendar date of `now` (the `en-CA` year/month/day
formatting of lines 668-677). -/
def localDateOf (off : Int → Int) (nowMs : Int) : Int :=
  (nowMs + off nowMs).fdiv dayMs

/-- `todayWindow(nowMs, timeZone)` (lines 665-689): today's local midnight and,
independently via its own round-trip, the next date's local midnight. -/
def todayWindow (off : Int → Int) (nowMs : Int) : Int × Int :=
  let d := localDateOf off nowMs
  let approxUtcMidnight := d * dayMs
  let startMs := shiftUtcToZonedMidnightMs off approxUtcMidnight
  let nextDayApproxUtcMidnight := (d + 1) * dayMs
  let endMs := shiftUtcToZonedMidnightMs off nextDayApproxUtcMidnight
  (startMs, endMs)

/-! ## Timezone normalization (`normalizeIcsTimezones`, part_000 lines 237-275)

The first regex pass collects the TZIDs declared by the text's VTIMEZONE
blocks (`vt`); the `replaceAll` pass then rewrites each `TZID=` reference
through the replacer below, with `findIana` the windows-iana lookup table.
The text is modelled by these two extractions, the reference rewriting by
mapping the replacer over the references. -/

/-- The `replaceAll` callback of lines 248-273: keep the match (`TZID=` plus
the identifier) untouched when the identifier has a VTIMEZONE definition or no
IANA mapping; otherwise rewrite, with the two pinned special cases. -/
def tzReplacer (vt : List String) (findIana : String → List String)
    (winTz : String) : String :=
  if winTz ∈ vt then "TZID=" ++ winTz
  else
    match findIana winTz with
    | [] => "TZID=" ++ winTz
    | iana :: _ =>
      if winTz = "FLE Standard Time" then "TZID=Europe/Nicosia"
      else if winTz = "Pacific Standard Time" then "TZID=America/Los_Angeles"
      else "TZID=" ++ iana

/-- The whole reference-rewriting pass over the text's `TZID=` references in
order. -/
def normalizeTzRefs (vt : List String) (findIana : String → List String)
    (refs : List String) : List String :=
  refs.map (tzReplacer vt findIana)

/-! ## Concrete inputs used in counterexamples and witnesses -/

/-- An occurrence spanning `[0, 10)`. -/
def occA : Occ :=
  { uid := "a", title := "A", location := none, organizer := none,
    startMs := 0, endMs := 10, status := none }

/-- An occurrence spanning `[6, 8)`, overlapped by `occA`. -/
def occB : Occ :=
  { uid := "b", title := "B", location := none, organizer := none,
    startMs := 6, endMs := 8, status := none }

/-- Scenario C's event `08:30Z`-`09:00Z` of 1970-01-01, in ms of the day. -/
def occEndsAtNow : Occ :=
  { uid := "c", title := "C", location := none, organizer := none,
    startMs := 30600000, endMs := 32400000, status := none }

/-- A recurring master with a 30-minute own duration (start 0, end 1800000). -/
def evC1 : EvRec :=
  { uid := "u1", summary := "Master", location := none, organizer := none,
    start := some 0, end_ := some 1800000, recurrenceId := none, exdate := [],
    status := none, datetype := "date-time", rrule := true }

/-- An override for `evC1`'s next-day instant that moves the start but carries
no end of its own. -/
def ovC1 : EvRec :=
  { uid := "u1", summary := "Moved", location := none, organizer := none,
    start := some 86400000, end_ := none, recurrenceId := some 86400000,
    exdate := [], status := none, datetype := "date-time", rrule := false }

/-- `evC1`'s uid override map: one override keyed at instant 86400000. -/
def ovrC1 : List (Int × EvRec) := [(86400000, ovC1)]

/-- A recurring master whose recurrence rule yields nothing near the window. -/
def evC4 : EvRec :=
  { uid := "u4", summary := "Weekly", location := none, organizer := none,
    start := some 0, end_ := some 1800000, recurrenceId := none, exdate := [],
    status := none, datetype := "date-time", rrule := true }

/-- An unmatched override whose literal end (864060000) precedes its own
start (864120000). -/
def ovC4 : EvRec :=
  { uid := "u4", summary := "Shortened", location := none, organizer := none,
    start := some 864120000, end_ := some 864060000,
    recurrenceId := some 999999, exdate := [], status := none,
    datetype := "date-time", rrule := false }

/-- `evC4`'s uid override map: the never-matched override keyed at 999999. -/
def ovrC4 : List (Int × EvRec) := [(999999, ovC4)]

/-- A recurring master lasting 48 hours (start 0, end 172800000), longer than
the smart skip's 24-hour assumption yet under the one-week bound. -/
def evC6 : EvRec :=
  { uid := "u6", summary := "TwoDay", location := none, organizer := none,
    start := some 0, end_ := some 172800000, recurrenceId := none, exdate := [],
    status := none, datetype := "date-time", rrule := true }

/-- A recurring master lasting one hour, within the skip's 24-hour assumption. -/
def evC6w : EvRec :=
  { uid := "u6w", summary := "Hourly", location := none, organizer := none,
    start := some 0, end_ := some 3600000, recurrenceId := none, exdate := [],
    status := none, datetype := "date-time", rrule := true }

/-- A recurring master with an EXDATE at instant 5. -/
def evC9 : EvRec :=
  { uid := "u9", summary := "Daily", location := none, organizer := none,
    start := some 0, end_ := some 2, recurrenceId := none, exdate := [[5]],
    status := none, datetype := "date-time", rrule := true }

/-- An override registered for `evC9`'s excluded instant 5. -/
def ovC9 : EvRec :=
  { uid := "u9", summary := "Override5", location := none, organizer := none,
    start := some 6, end_ := some 9, recurrenceId := some 5, exdate := [],
    status := none, datetype := "date-time", rrule := false }

/-- `evC9`'s uid override map: an override keyed at the excluded instant 5. -/
def ovrC9 : List (Int × EvRec) := [(5, ovC9)]

/-- A zone offset with a spring-forward transition at instant 86400000:
offset 0 before, +1h after (ms). -/
def offDst : Int → Int :=
  fun t => if t < 86400000 then 0 else 3600000

/-- `offDst` perturbed before noon of day 0 only: it formats today's midnight
differently but agrees with `offDst` on the next midnight. -/
def offDstShifted : Int → Int :=
  fun t => if t < 43200000 then 7200000 else offDst t

/-- A legacy→canonical zone lookup that does have a mapping for every name. -/
def fleMapping : String → List String :=
  fun _ => ["Europe/Helsinki"]

/-- An iterator yielding instant 0 three times and instant 100 from then on. -/
def iterThenPast : Nat → Option Int :=
  fun k => if k < 3 then some 0 else some 100

/-! ## Theorems -/

/-- C10: in every `computeMetrics` output, `isOverlappingNow` is true exactly
when `current` is non-null: both are derived from the same half-open predicate
`currentPred` over the same occurrence list (`some` vs `find`). -/
theorem overlappingNow_iff_current (occs : List Occ) (now : Int)
    (next : Option Occ) :
    (computeMetrics occs now next).isOverlappingNow = true
      ↔ (computeMetrics occs now next).current ≠ none := by
  simp [computeMetrics, isOverlappingNow, findCurrent, List.any_eq_true,
    Option.ne_none_iff_isSome, List.find?_isSome]

/-- C3: `current` is the first occurrence with `start ≤ now < end`: the code's
search is literally `List.find?` of `currentPred`; an occurrence whose end
equals `now` never satisfies the predicate (so it is neither current nor an
`isOverlappingNow` contributor), one whose start equals `now` (and has not
ended) does; and whatever is found contains `now` half-openly. -/
theorem current_half_open (occs : List Occ) (now : Int) :
    findCurrent occs now = occs.find? (currentPred now)
  ∧ (∀ o : Occ, o.endMs = now → currentPred now o = false)
  ∧ (∀ o : Occ, o.startMs = now → now < o.endMs → currentPred now o = true)
  ∧ (∀ o : Occ, findCurrent occs now = some o → o.startMs ≤ now ∧ now < o.endMs) := by
  refine ⟨rfl, ?_, ?_, ?_⟩
  · intro o h
    simp [currentPred, h]
  · intro o h1 h2
    simp [currentPred, h1, h2]
  · intro o h
    have hp := List.find?_some h
    simpa [currentPred] using hp

/-- Witness for `current_half_open`: Scenario C — the event `08:30Z`-`09:00Z`
evaluated at `now = 09:00Z` exactly is not current and leaves
`isOverlappingNow` false. -/
theorem current_half_open_witness :
    currentPred 32400000 occEndsAtNow = false
  ∧ findCurrent [occEndsAtNow] 32400000 = none
  ∧ isOverlappingNow [occEndsAtNow] 32400000 = false :=
  ⟨(current_half_open [occEndsAtNow] 32400000).2.1 occEndsAtNow rfl,
   by decide, by decide⟩

/-- C2: `next` is the first occurrence with `start ≥ current.end` when a
current occurrence exists and the first with `start ≥ now` otherwise; and it
is not the case that, whenever a current occurrence exists, `next` coincides
with the first occurrence with `start > now` (the two rules disagree on a
concrete list). -/
theorem next_from_current_end (occs : List Occ) (now : Int) :
    (∀ c : Occ, findCurrent occs now = some c →
      nextOcc occs now = occs.find? (fun o => decide (c.endMs ≤ o.startMs)))
  ∧ (findCurrent occs now = none →
      nextOcc occs now = occs.find? (fun o => decide (now ≤ o.startMs)))
  ∧ ¬ (∀ (l : List Occ) (n : Int) (c : Occ), findCurrent l n = some c →
      nextOcc l n = l.find? (fun o => decide (n < o.startMs))) := by
  refine ⟨?_, ?_, ?_⟩
  · intro c hc
    have hs : searchFromMs occs now = c.endMs := by
      unfold searchFromMs
      rw [hc]
    unfold nextOcc
    rw [hs]
  · intro hc
    have hs : searchFromMs occs now = now := by
      unfold searchFromMs
      rw [hc]
    unfold nextOcc
    rw [hs]
  · intro h
    have h2 := h [occA, occB] 5 occA (by decide)
    exact absurd h2 (by decide)

/-- Witness for `next_from_current_end`: with `occA = [0,10)` current at
`now = 5`, `next` is searched from `occA.endMs = 10` (and is therefore absent
on `[occA, occB]`, not `occB`). -/
theorem next_from_current_end_witness :
    nextOcc [occA, occB] 5
      = [occA, occB].find? (fun o => decide (occA.endMs ≤ o.startMs)) :=
  (next_from_current_end [occA, occB] 5).1 occA (by decide)

/-- C8: the timezone replacer leaves a `TZID=` reference unchanged whenever
its identifier is declared by a VTIMEZONE block of the same text (the set
`vt`), for every legacy→canonical lookup table; contrapositively, only
references without such a declaration are ever rewritten. -/
theorem vtimezone_refs_preserved (vt : List String)
    (findIana : String → List String) (r : String) :
    (r ∈ vt → tzReplacer vt findIana r = "TZID=" ++ r)
  ∧ (tzReplacer vt findIana r ≠ "TZID=" ++ r → r ∉ vt) := by
  constructor
  · intro h
    unfold tzReplacer
    rw [if_pos h]
  · intro h hmem
    exact h (by unfold tzReplacer; rw [if_pos hmem])

/-- Witness for `vtimezone_refs_preserved`: Scenario D — the legacy name
"FLE Standard Time" has a mapping in the lookup table (even a pinned special
case in the code), yet is kept verbatim because a VTIMEZONE block declares
it. -/
theorem vtimezone_refs_preserved_witness :
    fleMapping "FLE Standard Time" ≠ []
  ∧ tzReplacer ["FLE Standard Time"] fleMapping "FLE Standard Time"
      = "TZID=" ++ "FLE Standard Time" :=
  ⟨by decide,
   (vtimezone_refs_preserved ["FLE Standard Time"] fleMapping
     "FLE Standard Time").1 (by decide)⟩

/-- C7: the window's end is the next local date's own zone round-trip,
`(d+1)·day − off((d+1)·day)`, which depends only on the zone's behaviour at
the next midnight (two zones agreeing there produce the same end however they
differ at today's midnight, i.e. the end is not derived from the start), and
across the concrete DST transition `offDst` the resulting day length is not
24 hours. -/
theorem window_end_independent :
    (∀ (off : Int → Int) (nowMs : Int),
      (todayWindow off nowMs).2
        = (localDateOf off nowMs + 1) * dayMs
            - off ((localDateOf off nowMs + 1) * dayMs))
  ∧ (∀ (off off' : Int → Int) (nowMs : Int),
      localDateOf off nowMs = localDateOf off' nowMs →
      off ((localDateOf off nowMs + 1) * dayMs)
          = off' ((localDateOf off' nowMs + 1) * dayMs) →
      (todayWindow off nowMs).2 = (todayWindow off' nowMs).2)
  ∧ (todayWindow offDst 43200000).2 - (todayWindow offDst 43200000).1 ≠ dayMs := by
  refine ⟨?_, ?_, ?_⟩
  · intro off nowMs
    simp only [todayWindow, shiftUtcToZonedMidnightMs]
    omega
  · intro off off' nowMs h1 h2
    simp only [todayWindow, shiftUtcToZonedMidnightMs]
    rw [h1]
    rw [h1] at h2
    omega
  · decide

/-- Witness for `window_end_independent`: `offDstShifted` disagrees with
`offDst` at today's midnight (so the window starts differ) but agrees at the
next midnight, and both windows end at the same instant. -/
theorem window_end_independent_witness :
    (todayWindow offDst 43200000).2 = (todayWindow offDstShifted 43200000).2
  ∧ (todayWindow offDst 43200000).1 ≠ (todayWindow offDstShifted 43200000).1 :=
  ⟨window_end_independent.2.1 offDst offDstShifted 43200000
      (by decide) (by decide),
   by decide⟩

/-- C5 counterexample: the recurring-expansion loop has no hard
iteration-count safety cap — on the malformed iterator that forever yields
instant 0 below `windowEnd = 1`, the number of iterations performed exceeds
every would-be cap (it equals the allowed fuel). -/
theorem no_iteration_cap :
    ¬ ∃ cap : Nat, ∀ fuel : Nat,
        loopIterations (fun _ => some 0) 1 fuel ≤ cap := by
  rintro ⟨cap, h⟩
  have key : ∀ fuel count : Nat,
      expandIterLoop (fun _ => some 0) 1 fuel count = fuel + count := by
    intro fuel
    induction fuel with
    | zero => intro count; rw [expandIterLoop]; omega
    | succ n ih =>
      intro count
      rw [expandIterLoop]
      simp only [if_neg (by omega : ¬ (1 : Int) ≤ 0)]
      rw [ih]
      omega
  have hbad := h (cap + 1)
  rw [loopIterations, key] at hbad
  omega

/-- If the iterator's k-th value reaches `windowEnd`, the loop never performs
more than `k + 1` iterations (it may stop even earlier), whatever fuel it is
given. -/
theorem expandIterLoop_le_of_terminator (iter : Nat → Option Int) (wE : Int)
    (k : Nat) (v : Int) (hk : iter k = some v) (hv : wE ≤ v) :
    ∀ fuel count : Nat, count ≤ k → expandIterLoop iter wE fuel count ≤ k + 1 := by
  intro fuel
  induction fuel with
  | zero => intro count hc; rw [expandIterLoop]; omega
  | succ n ih =>
    intro count hc
    cases hic : iter count with
    | none => rw [expandIterLoop]; simp only [hic]; omega
    | some c =>
      rw [expandIterLoop]
      simp only [hic]
      by_cases hwc : wE ≤ c
      · rw [if_pos hwc]; omega
      · rw [if_neg hwc]
        apply ih
        rcases Nat.lt_or_ge count k with hlt | hge
        · omega
        · exfalso
          have hck : count = k := Nat.le_antisymm hc hge
          rw [hck, hk] at hic
          injection hic with hvc
          rw [hvc] at hv
          exact hwc hv

/-- If the iterator is exhausted by its k-th call, the loop never performs
more than `k` iterations, whatever fuel it is given. -/
theorem expandIterLoop_le_of_exhaustion (iter : Nat → Option Int) (wE : Int)
    (k : Nat) (hk : iter k = none) :
    ∀ fuel count : Nat, count ≤ k → expandIterLoop iter wE fuel count ≤ k := by
  intro fuel
  induction fuel with
  | zero => intro count hc; rw [expandIterLoop]; omega
  | succ n ih =>
    intro count hc
    cases hic : iter count with
    | none => rw [expandIterLoop]; simp only [hic]; omega
    | some c =>
      rw [expandIterLoop]
      simp only [hic]
      have hck : count < k := by
        rcases Nat.lt_or_ge count k with hlt | hge
        · exact hlt
        · exfalso
          have : count = k := Nat.le_antisymm hc hge
          rw [this, hk] at hic
          exact Option.noConfusion hic
      by_cases hwc : wE ≤ c
      · rw [if_pos hwc]; omega
      · rw [if_neg hwc]
        exact ih (count + 1) hck

/-- C5 amended: the recurring-expansion loop is guarded by its natural
terminator only — whenever some iterator value reaches `windowEnd` (or the
iterator is exhausted) the loop performs at most that many iterations, for
every fuel allowance — and by `no_iteration_cap` there is no hard
iteration-count safety cap on top of it. -/
theorem natural_terminator_bounds (iter : Nat → Option Int) (wE : Int) (k : Nat) :
    (∀ v : Int, iter k = some v → wE ≤ v →
        ∀ fuel, loopIterations iter wE fuel ≤ k + 1)
  ∧ (iter k = none → ∀ fuel, loopIterations iter wE fuel ≤ k) := by
  constructor
  · intro v hk hv fuel
    exact expandIterLoop_le_of_terminator iter wE k v hk hv fuel 0 (Nat.zero_le k)
  · intro hk fuel
    exact expandIterLoop_le_of_exhaustion iter wE k hk fuel 0 (Nat.zero_le k)

/-- Witness for `natural_terminator_bounds`: `iterThenPast` reaches
`windowEnd = 50` on its fourth call, so with fuel 10 the loop performs at most
4 iterations. -/
theorem natural_terminator_bounds_witness :
    loopIterations iterThenPast 50 10 ≤ 4 :=
  (natural_terminator_bounds iterThenPast 50 3).1 100 (by decide) (by decide) 10

/-- C9: a candidate instant (below `windowEnd`, so not the break) that matches
an exception instant exactly is dropped before the override lookup: the
iteration continues on the remaining candidates with the occurrence list and
the `usedOverrides` set untouched, for every override map — in particular even
when an override is keyed at that very instant, the expansion pass produces no
occurrence for it (and does not mark the override used). -/
theorem excluded_dropped_before_override (defDurMin : Int) (ev : EvRec)
    (ovr : List (Int × EvRec)) (wS wE c : Int) (rest used : List Int)
    (h1 : c < wE) (h2 : isExcluded c ev.exdate = true) :
    expandLoop defDurMin ev ovr wS wE (c :: rest) used
      = expandLoop defDurMin ev ovr wS wE rest used := by
  rw [expandLoop]
  rw [if_neg (not_le.mpr h1)]
  by_cases hskip : c + dayMs < wS
  · rw [if_pos hskip]
  · rw [if_neg hskip, if_pos h2]

/-- Witness for `excluded_dropped_before_override`: `evC9` excludes instant 5
by EXDATE while its override map does carry an override keyed at 5; the loop
over candidates `[5, 7]` equals the loop over `[7]` alone. -/
theorem excluded_dropped_before_override_witness :
    (lookupOv ovrC9 5).isSome = true
  ∧ expandLoop 60 evC9 ovrC9 0 10 [5, 7] []
      = expandLoop 60 evC9 ovrC9 0 10 [7] [] :=
  ⟨by decide,
   excluded_dropped_before_override 60 evC9 ovrC9 0 10 5 [7] []
     (by decide) (by decide)⟩

/-- When the master's own start/end pair yields a valid duration, the derived
duration is exactly `end − start`. -/
theorem calcDurationMsFromEvent_of_valid (defDurMin : Int) (ev : EvRec)
    (a b : Int) (ha : ev.start = some a) (hb : ev.end_ = some b)
    (hpos : 0 < b - a) (hweek : b - a < weekMs) :
    calcDurationMsFromEvent defDurMin ev = b - a := by
  unfold calcDurationMsFromEvent
  rw [ha, hb]
  simp [hpos, hweek]

/-- Over an arbitrary override map, every occurrence the iteration loop emits
either has end exactly start plus the master's own duration, or was built by
applying the override keyed at its candidate instant (the only way `calcEndMs`
is ever called with a non-`none` override). -/
theorem expandLoop_duration_or_override (defDurMin : Int) (ev : EvRec)
    (ovr : List (Int × EvRec)) (wS wE a b : Int)
    (ha : ev.start = some a) (hb : ev.end_ = some b)
    (hpos : 0 < b - a) (hweek : b - a < weekMs) :
    ∀ cands used : List Int,
      ∀ occ ∈ (expandLoop defDurMin ev ovr wS wE cands used).1,
        occ.endMs = occ.startMs + (b - a)
        ∨ ∃ c o, lookupOv ovr c = some o
            ∧ occ = mkOcc defDurMin ev (o.start.getD c) (some o) := by
  have hdur := calcDurationMsFromEvent_of_valid defDurMin ev a b ha hb hpos hweek
  intro cands
  induction cands with
  | nil =>
    intro used occ h
    rw [expandLoop] at h
    simp at h
  | cons c rest ih =>
    intro used occ h
    rw [expandLoop] at h
    by_cases hbr : wE ≤ c
    · rw [if_pos hbr] at h
      simp at h
    · rw [if_neg hbr] at h
      by_cases hskip : c + dayMs < wS
      · rw [if_pos hskip] at h
        exact ih used occ h
      · rw [if_neg hskip] at h
        by_cases hex : isExcluded c ev.exdate
        · rw [if_pos hex] at h
          exact ih used occ h
        · rw [if_neg hex] at h
          cases hlook : lookupOv ovr c with
          | none =>
            simp only [hlook, Option.isSome_none, Option.none_bind,
              Option.getD_none, reduceCtorEq, if_false, Bool.false_eq_true,
              if_neg (fun hc => Option.noConfusion hc
                : (none : Option String) ≠ some "CANCELLED")] at h
            rw [calcEndMs] at h
            by_cases hov : c < wE ∧ wS < c + calcDurationMsFromEvent defDurMin ev
            · rw [if_pos hov] at h
              by_cases hcanc : (mkOcc defDurMin ev c none).status = some "CANCELLED"
                  ∨ strStartsWith (mkOcc defDurMin ev c none).title "Canceled:"
              · rw [if_pos hcanc] at h
                exact ih _ occ h
              · rw [if_neg hcanc] at h
                simp only [List.mem_cons] at h
                rcases h with h | h
                · left
                  rw [h]
                  show calcEndMs defDurMin ev c none = c + (b - a)
                  rw [calcEndMs, hdur]
                · exact ih _ occ h
            · rw [if_neg hov] at h
              exact ih _ occ h
          | some o =>
            simp only [hlook, Option.isSome_some, Option.some_bind] at h
            by_cases hcst : o.status = some "CANCELLED"
            · rw [if_pos hcst] at h
              exact ih _ occ h
            · rw [if_neg hcst] at h
              by_cases hov : o.start.getD c < wE
                  ∧ wS < calcEndMs defDurMin ev (o.start.getD c) (some o)
              · rw [if_pos hov] at h
                by_cases hcanc :
                    (mkOcc defDurMin ev (o.start.getD c) (some o)).status
                        = some "CANCELLED"
                    ∨ strStartsWith
                        (mkOcc defDurMin ev (o.start.getD c) (some o)).title
                        "Canceled:"
                · rw [if_pos hcanc] at h
                  exact ih _ occ h
                · rw [if_neg hcanc] at h
                  simp only [List.mem_cons] at h
                  rcases h with h | h
                  · right
                    exact ⟨c, o, hlook, h⟩
                  · exact ih _ occ h
              · rw [if_neg hov] at h
                exact ih _ occ h

/-- C1 amended: for a master whose own start/end pair yields a positive
duration `d = b − a` below one week, and for an arbitrary override map, every
expanded occurrence that is not built from an override — neither the
application of the override keyed at its candidate instant during iteration,
nor a standalone occurrence of the unused-override pass — satisfies
`end − start = d` exactly, and can carry the master's literal end instant `b`
only when it starts at the master's own start `a` (never on a different
occurrence's date).  Occurrences that are built from an override without an
applicable end get the override-derived duration instead, refuting the
original claim's wider scope (`override_without_end_breaks_duration_law`). -/
theorem recurrence_duration_law (defDurMin : Int) (ev : EvRec)
    (cands : List Int) (ovr : List (Int × EvRec)) (wS wE a b : Int)
    (ha : ev.start = some a) (hb : ev.end_ = some b)
    (hpos : 0 < b - a) (hweek : b - a < weekMs) :
    ∀ occ ∈ expandOccurrencesInWindow defDurMin ev cands ovr wS wE,
      (occ.endMs - occ.startMs = b - a ∧ (occ.startMs ≠ a → occ.endMs ≠ b))
      ∨ (∃ c o, lookupOv ovr c = some o
          ∧ occ = mkOcc defDurMin ev (o.start.getD c) (some o))
      ∨ occ ∈ standaloneOccs defDurMin ev ovr wS wE
          (expandLoop defDurMin ev ovr wS wE cands []).2 := by
  have hdur := calcDurationMsFromEvent_of_valid defDurMin ev a b ha hb hpos hweek
  intro occ h
  unfold expandOccurrencesInWindow at h
  by_cases hdt : ev.datetype = "date"
  · rw [if_pos hdt] at h
    simp at h
  · rw [if_neg hdt] at h
    rw [ha] at h
    cases hr : ev.rrule
    · rw [hr] at h
      simp only [Bool.not_false, if_true] at h
      by_cases hov : a < wE ∧ wS < ev.end_.getD (a + defDurMin * 60000)
      · rw [if_pos hov] at h
        by_cases hcanc : (mkOcc defDurMin ev a none).status = some "CANCELLED"
            ∨ strStartsWith (mkOcc defDurMin ev a none).title "Canceled:"
        · rw [if_pos hcanc] at h
          simp at h
        · rw [if_neg hcanc] at h
          simp only [List.mem_singleton] at h
          rw [h]
          have hend : (mkOcc defDurMin ev a none).endMs = a + (b - a) := by
            show calcEndMs defDurMin ev a none = a + (b - a)
            rw [calcEndMs, hdur]
          left
          refine ⟨?_, ?_⟩
          · rw [hend]
            show a + (b - a) - a = b - a
            ring
          · intro hne
            exact absurd rfl hne
      · rw [if_neg hov] at h
        simp at h
    · rw [hr] at h
      simp only [Bool.not_true, Bool.false_eq_true, if_false] at h
      rw [List.mem_append] at h
      rcases h with h | h
      · rcases expandLoop_duration_or_override defDurMin ev ovr wS wE a b
          ha hb hpos hweek cands [] occ h with h1 | h2
        · left
          constructor
          · omega
          · intro h1' h2'
            omega
        · right
          left
          exact h2
      · right
        right
        exact h

/-- C1 counterexample: the claim as stated fails on the code — `evC1` has
duration `d = 1800000` (30 min, positive and under a week), yet the
occurrence expanded at instant 86400000, whose override `ovC1` carries no
applicable explicit end, gets `end − start = 3600000` (the default 60 min,
since `calcEndMs` falls back to `calcDurationMsFromEvent` of the override
rather than of the master), not `d`. -/
theorem override_without_end_breaks_duration_law :
    ((lookupOv ovrC1 86400000).bind (fun o => o.end_) = none)
  ∧ ((0 : Int) < 1800000 ∧ (1800000 : Int) < weekMs)
  ∧ (evC1.end_.getD 0 - evC1.start.getD 0 = 1800000)
  ∧ ((expandOccurrencesInWindow 60 evC1 [86400000] ovrC1 86400000 172800000).map
        (fun o => o.endMs - o.startMs) = [3600000])
  ∧ ((3600000 : Int) ≠ 1800000) := by
  refine ⟨by decide, by decide, by decide, ?_, by decide⟩
  decide

/-- Witness for `recurrence_duration_law`: even with `evC1`'s override map
non-empty (instant 86400000 is overridden by `ovC1`), the occurrence expanded
at the override-free instant 172800000 keeps the master's exact 30-minute
duration. -/
theorem recurrence_duration_law_witness :
    (mkOcc 60 evC1 172800000 none).endMs - (mkOcc 60 evC1 172800000 none).startMs
      = 1800000 - 0 := by
  have h := recurrence_duration_law 60 evC1 [86400000, 172800000] ovrC1
    86400000 259200000 0 1800000 rfl rfl (by decide) (by decide)
    (mkOcc 60 evC1 172800000 none) (by decide)
  rcases h with ⟨h1, _⟩ | ⟨c, o, hl, heq⟩ | hst
  · exact h1
  · exfalso
    simp only [ovrC1, lookupOv] at hl
    by_cases hc : (86400000 : Int) = c
    · rw [if_pos hc] at hl
      injection hl with ho
      rw [← hc, ← ho] at heq
      exact absurd heq (by decide)
    · rw [if_neg hc] at hl
      exact Option.noConfusion hl
  · exact absurd hst (by decide)

/-- C4: evaluating the code at the failing input — the unmatched override
`ovC4` (end 864060000 before start 864120000) is emitted by the standalone
pass as an occurrence with `endMs < startMs`, uncorrected by any default, and
that occurrence even survives the handler's final keep filter
`o.startMs < endMs && o.endMs > nowMs` at `now = windowStart`.  This
contradicts the documented invariant `endInstant > startInstant`, which the
main `calcEndMs` path does enforce. -/
theorem standalone_override_negative_duration :
    ((expandOccurrencesInWindow 60 evC4 [0] ovrC4 864000000 950400000).map
        (fun o => (o.startMs, o.endMs)) = [(864120000, 864060000)])
  ∧ ((864060000 : Int) < 864120000)
  ∧ ((864120000 : Int) < 950400000 ∧ (864000000 : Int) < 864060000) := by
  refine ⟨?_, by decide, by decide⟩
  decide

/-- The smart skip agrees step-by-step with the exhaustive scan whenever every
candidate it would skip (an instant more than 24h before `windowStart`) has no
override keyed at it and a derived end that cannot reach past `windowStart`. -/
theorem expandLoop_eq_noSkip (defDurMin : Int) (ev : EvRec)
    (ovr : List (Int × EvRec)) (wS wE : Int) (cands : List Int) :
    (∀ c ∈ cands, c + dayMs < wS →
      lookupOv ovr c = none ∧ calcEndMs defDurMin ev c none ≤ wS) →
    ∀ used : List Int,
      expandLoop defDurMin ev ovr wS wE cands used
        = expandLoopNoSkip defDurMin ev ovr wS wE cands used := by
  induction cands with
  | nil =>
    intro _ used
    rfl
  | cons c rest ih =>
    intro H used
    have ihr := ih (fun c' hm hlt => H c' (List.mem_cons_of_mem c hm) hlt)
    rw [expandLoop, expandLoopNoSkip]
    by_cases hbr : wE ≤ c
    · rw [if_pos hbr, if_pos hbr]
    · rw [if_neg hbr, if_neg hbr]
      by_cases hskip : c + dayMs < wS
      · rw [if_pos hskip]
        obtain ⟨hlook, hend⟩ := H c (List.mem_cons_self c rest) hskip
        by_cases hex : isExcluded c ev.exdate
        · rw [if_pos hex]
          exact ihr used
        · rw [if_neg hex]
          simp only [hlook, Option.isSome_none, Option.none_bind,
            Option.getD_none, Bool.false_eq_true, if_false, reduceCtorEq]
          rw [if_neg (by
            intro hc
            exact absurd hc.2 (not_lt.mpr hend))]
          exact ihr used
      · rw [if_neg hskip]
        by_cases hex : isExcluded c ev.exdate
        · rw [if_pos hex, if_pos hex]
          exact ihr used
        · rw [if_neg hex, if_neg hex]
          simp only [ihr]

/-- C6 amended: the defensive fast-skip preserves the expansion result
whenever every candidate it would discard (more than 24h before the window
start) has no override keyed at it and a derived end that cannot reach the
window — in particular whenever the applied duration is at most the skip's
24-hour assumption.  Outside that regime the skip does change inclusion
(`fast_skip_changes_inclusion`), so it is not unconditionally a pure
optimization. -/
theorem fast_skip_refines (defDurMin : Int) (ev : EvRec) (cands : List Int)
    (ovr : List (Int × EvRec)) (wS wE : Int)
    (H : ∀ c ∈ cands, c + dayMs < wS →
      lookupOv ovr c = none ∧ calcEndMs defDurMin ev c none ≤ wS) :
    expandOccurrencesInWindow defDurMin ev cands ovr wS wE
      = expandOccurrencesInWindowNoSkip defDurMin ev cands ovr wS wE := by
  unfold expandOccurrencesInWindow expandOccurrencesInWindowNoSkip
  simp only [expandLoop_eq_noSkip defDurMin ev ovr wS wE cands H]

/-- C6 counterexample: the claim as stated fails on the code — for the
48-hour master `evC6`, the candidate instant 169200000 (25h before the window
start 259200000) is fast-skipped although its occurrence would still overlap
the window, so expansion with the skip returns nothing while the exhaustive
scan includes the occurrence. -/
theorem fast_skip_changes_inclusion :
    (expandOccurrencesInWindow 60 evC6 [169200000] [] 259200000 345600000 = [])
  ∧ (expandOccurrencesInWindowNoSkip 60 evC6 [169200000] [] 259200000 345600000
      ≠ []) := by
  constructor
  · decide
  · decide

/-- Witness for `fast_skip_refines`: for the one-hour master `evC6w` the
skipped candidate cannot reach the window, and both expansions agree. -/
theorem fast_skip_refines_witness :
    expandOccurrencesInWindow 60 evC6w [100000000] [] 200000000 286400000
      = expandOccurrencesInWindowNoSkip 60 evC6w [100000000] [] 200000000 286400000 :=
  fast_skip_refines 60 evC6w [100000000] [] 200000000 286400000 (by decide)

end CalendarNext
